import Mathlib

/-!
# Verification of the screen-space border resolution engine

This development gives a shallow embedding of the border renderer in
`quadratic-client/src/app/gridGL/cells/borders/Borders.ts` and proves
properties of the resolution-and-splitting algorithm, the tiered
sheet-border renderer, and the render-loop controller.

The helper module `bordersUtil.ts` (containing `divideLine` and the
perpendicular-line finders) and the helpers `intersects.lineLineOneDimension`
and `drawCellBorder` are not part of the provided sources; they are modelled
from the specification (sections 4.1, 4.2 and 6) and are marked as such.
-/

/-- The kind of a border line.  `quadratic-core-types` enumerates several
concrete line styles together with the sentinel `clear` meaning "explicitly
no border". -/
inductive CellBorderLine where
  | line1
  | line2
  | line3
  | dotted
  | dashed
  | double
  | clear
deriving DecidableEq, Repr

/-- An edge declaration with a logical timestamp
(`BorderStyleTimestamp` in `quadratic-core-types`). -/
structure BorderStyleTimestamp where
  color : Nat
  line : CellBorderLine
  timestamp : Int
deriving DecidableEq, Repr

/-- Up to four edge declarations for a cell, column or row
(`BorderStyleCell` in `quadratic-core-types`). -/
structure BorderStyleCell where
  top : Option BorderStyleTimestamp
  bottom : Option BorderStyleTimestamp
  left : Option BorderStyleTimestamp
  right : Option BorderStyleTimestamp
deriving DecidableEq, Repr

/-- An explicit horizontal border segment (`JsBorderHorizontal`). -/
structure JsBorderHorizontal where
  x : Int
  y : Int
  width : Int
  line : CellBorderLine
  color : Nat
deriving DecidableEq, Repr

/-- An explicit vertical border segment (`JsBorderVertical`). -/
structure JsBorderVertical where
  x : Int
  y : Int
  height : Int
  line : CellBorderLine
  color : Nat
deriving DecidableEq, Repr

/-- A sparse per-index override map (`Record<string, BorderStyleCell>`),
modelled as an association list keyed by the integer index. -/
def OverrideMap : Type := List (Int × BorderStyleCell)

instance : DecidableEq OverrideMap := by
  unfold OverrideMap
  infer_instance

/-- The border dataset for one sheet (`JsBordersSheet`). -/
structure JsBordersSheet where
  all : Option BorderStyleCell
  columns : Option OverrideMap
  rows : Option OverrideMap
  horizontal : Option (List JsBorderHorizontal)
  vertical : Option (List JsBorderVertical)
deriving DecidableEq

/-- Looks up the override for index `i`
(JavaScript `map[i.toString()]` on the sparse record). -/
def lookupOverride (m : Option OverrideMap) (i : Int) : Option BorderStyleCell :=
  match m with
  | none => none
  | some l => (l.find? (fun p => p.1 == i)).map (fun p => p.2)

/-- Modelled from the spec: `intersects.lineLineOneDimension`
(helper not in the provided sources).  Section 4.1: true iff the two
closed-open one-dimensional intervals share any length; touching at a
single point does not count as overlap. -/
def lineLineOneDimension (aStart aEnd bStart bEnd : Int) : Bool :=
  aStart < bEnd && bStart < aEnd

/-- A crossing obstruction reduced to its position and extent along the
line being drawn (spec section 4.2: position together with thickness 1 for
override-derived crossings; explicit segments keep their own length). -/
structure Obstruction where
  pos : Int
  len : Int
deriving DecidableEq, Repr

/-- Ascending comparison on obstruction positions; this is the comparator
`(a, b) => a.y - b.y` (respectively `a.x - b.x`) used by the source before
the pop loop. -/
def obsLE (a b : Obstruction) : Prop := a.pos ≤ b.pos

instance : DecidableRel obsLE := fun a b => by
  unfold obsLE
  infer_instance

instance : IsTotal Obstruction obsLE := ⟨fun a b => Int.le_total a.pos b.pos⟩

instance : IsTrans Obstruction obsLE := ⟨fun _ _ _ h1 h2 => le_trans h1 h2⟩

/-- Sorts the collected obstructions ascending by position (the
`overlaps.sort` call in `drawScreenVerticalLine` / `drawScreenHorizontalLine`;
JavaScript `Array.prototype.sort` is stable, as is insertion sort). -/
def sortObstructions (l : List Obstruction) : List Obstruction :=
  List.insertionSort obsLE l

/-- Modelled from the spec: `divideLine` (`bordersUtil.ts`, not in the
provided sources).  Section 4.1 `subtract_interval`: consumes one
obstruction against the remaining undrawn portion of `[start, stop)`
starting from the cursor (the end of the last emitted-or-skipped region),
appends any newly determined drawable sub-interval, and returns the new
right-edge cursor.  An obstruction fully before the cursor is a no-op; one
inside the remaining range splits it into before/after; one extending past
the remaining range is truncated to `stop`. -/
def divideLine (lines : List (Int × Int)) (current : Option Int) (start stop : Int)
    (oPos oLen : Int) : List (Int × Int) × Option Int :=
  let c := current.getD start
  let oEnd := oPos + oLen
  if oEnd ≤ c then (lines, current)
  else
    let s := max c oPos
    let lines2 := if c < s then lines ++ [(c, s)] else lines
    (lines2, some (min oEnd stop))

/-- Modelled from the spec: `findPerpendicularVerticalLines`
(`bordersUtil.ts`, not in the provided sources).  Section 4.2: given the
span of the vertical line being drawn and a sparse override map, returns
every override whose relevant edge (`left` or `right`) falls within
`[rangeStart, rangeEnd)`, reduced to position and thickness 1.
Section 7: an absent map produces zero obstructions. -/
def findPerpendicularVerticalLines (rangeStart rangeEnd : Int)
    (m : Option OverrideMap) : List Obstruction :=
  match m with
  | none => []
  | some l =>
    (l.filter (fun p =>
      decide (rangeStart ≤ p.1) && decide (p.1 < rangeEnd)
        && (p.2.left.isSome || p.2.right.isSome))).map (fun p => ⟨p.1, 1⟩)

/-- Modelled from the spec: `findPerpendicularHorizontalLines`
(`bordersUtil.ts`, not in the provided sources).  As
`findPerpendicularVerticalLines` but for a horizontal line, with `top`
and `bottom` as the relevant edges. -/
def findPerpendicularHorizontalLines (rangeStart rangeEnd : Int)
    (m : Option OverrideMap) : List Obstruction :=
  match m with
  | none => []
  | some l =>
    (l.filter (fun p =>
      decide (rangeStart ≤ p.1) && decide (p.1 < rangeEnd)
        && (p.2.top.isSome || p.2.bottom.isSome))).map (fun p => ⟨p.1, 1⟩)

/-- The obstruction list collected by `drawScreenVerticalLine`
(Borders.ts lines 79-91): explicit vertical segments at the same column
whose span overlaps the line, followed by the override-derived
perpendicular crossings. -/
def collectVerticalObstructions (vsegs : Option (List JsBorderVertical))
    (ovr : Option OverrideMap) (rowStart rowEnd column : Int) : List Obstruction :=
  (match vsegs with
   | none => []
   | some vs =>
     (vs.filter (fun v =>
       v.x == column && lineLineOneDimension v.y (v.y + v.height) rowStart rowEnd)).map
       (fun v => ⟨v.y, v.height⟩)) ++
  findPerpendicularVerticalLines rowStart rowEnd ovr

/-- The obstruction list collected by `drawScreenHorizontalLine`
(Borders.ts lines 133-145). -/
def collectHorizontalObstructions (hsegs : Option (List JsBorderHorizontal))
    (ovr : Option OverrideMap) (columnStart columnEnd row : Int) : List Obstruction :=
  (match hsegs with
   | none => []
   | some hs =>
     (hs.filter (fun h =>
       h.y == row && lineLineOneDimension h.x (h.x + h.width) columnStart columnEnd)).map
       (fun h => ⟨h.x, h.width⟩)) ++
  findPerpendicularHorizontalLines columnStart columnEnd ovr

/-- Fuel-indexed body of the `while (overlaps.length) { overlaps.pop() }`
loop of Borders.ts lines 94-99: repeatedly removes the last (greatest
position) obstruction of the sorted list and feeds it to `divideLine`. -/
def popConsumeAux : Nat → List Obstruction → List (Int × Int) → Option Int → Int → Int →
    List (Int × Int) × Option Int
  | 0, _, lines, cur, _, _ => (lines, cur)
  | Nat.succ n, os, lines, cur, s, e =>
    match os.getLast? with
    | none => (lines, cur)
    | some o =>
      let r := divideLine lines cur s e o.pos o.len
      popConsumeAux n os.dropLast r.1 r.2 s e

/-- The pop loop, with enough fuel to empty the list. -/
def popConsume (os : List Obstruction) (lines : List (Int × Int)) (cur : Option Int)
    (s e : Int) : List (Int × Int) × Option Int :=
  popConsumeAux os.length os lines cur s e

/-- Sorts the obstructions ascending, runs the pop loop, and applies the
final emission rule of Borders.ts lines 100-104: no cursor means the whole
span is emitted; otherwise the remainder `[cursor, stop)` is emitted iff
`cursor < stop`. -/
def resolveOverlaps (obs : List Obstruction) (start stop : Int) : List (Int × Int) :=
  let sorted := sortObstructions obs
  let r := popConsume sorted [] none start stop
  match r.2 with
  | none => r.1 ++ [(start, stop)]
  | some c => if c < stop then r.1 ++ [(c, stop)] else r.1

/-- The sub-intervals emitted by `drawScreenVerticalLine`
(Borders.ts lines 76-107): when neither explicit vertical segments nor an
override map is supplied the whole span is drawn unsplit; otherwise the
collected obstructions are subtracted from the span. -/
def screenVerticalSegments (vsegs : Option (List JsBorderVertical))
    (ovr : Option OverrideMap) (rowStart rowEnd column : Int) : List (Int × Int) :=
  if vsegs.isSome || ovr.isSome then
    resolveOverlaps (collectVerticalObstructions vsegs ovr rowStart rowEnd column)
      rowStart rowEnd
  else [(rowStart, rowEnd)]

/-- The sub-intervals emitted by `drawScreenHorizontalLine`
(Borders.ts lines 122-161). -/
def screenHorizontalSegments (hsegs : Option (List JsBorderHorizontal))
    (ovr : Option OverrideMap) (columnStart columnEnd row : Int) : List (Int × Int) :=
  if hsegs.isSome || ovr.isSome then
    resolveOverlaps (collectHorizontalObstructions hsegs ovr columnStart columnEnd row)
      columnStart columnEnd
  else [(columnStart, columnEnd)]

/-- Claim-shaped consumption: feeds the obstructions to `divideLine` one at
a time in the order of the given list (which, for the claim, is the
descending-by-position order), threading the emitted lines and the cursor. -/
def consumeDescending : List Obstruction → List (Int × Int) → Option Int → Int → Int →
    List (Int × Int) × Option Int
  | [], lines, cur, _, _ => (lines, cur)
  | o :: rest, lines, cur, s, e =>
    let r := divideLine lines cur s e o.pos o.len
    consumeDescending rest r.1 r.2 s e

/-- Claim-shaped final emission: if the cursor was never set the whole span
`[start, stop)` is emitted as one segment; otherwise the remainder
`[cursor, stop)` is emitted iff `cursor < stop`. -/
def finalizeSegments (start stop : Int) : List (Int × Int) × Option Int → List (Int × Int)
  | (_, none) => [(start, stop)]
  | (lines, some c) => if c < stop then lines ++ [(c, stop)] else lines

/-- Resolution of a horizontal screen line from the explicit horizontal
segments alone, with no reference to any per-index override map.  Stated
from the claim wording for comparison with `screenHorizontalSegments`. -/
def explicitOnlyHorizontalSegments (hsegs : Option (List JsBorderHorizontal))
    (columnStart columnEnd row : Int) : List (Int × Int) :=
  match hsegs with
  | none => [(columnStart, columnEnd)]
  | some hs =>
    resolveOverlaps
      ((hs.filter (fun h =>
        h.y == row && lineLineOneDimension h.x (h.x + h.width) columnStart columnEnd)).map
        (fun h => ⟨h.x, h.width⟩))
      columnStart columnEnd

/-- Resolution of a vertical screen line from the explicit vertical segments
alone, with no reference to any per-index override map. -/
def explicitOnlyVerticalSegments (vsegs : Option (List JsBorderVertical))
    (rowStart rowEnd column : Int) : List (Int × Int) :=
  match vsegs with
  | none => [(rowStart, rowEnd)]
  | some vs =>
    resolveOverlaps
      ((vs.filter (fun v =>
        v.x == column && lineLineOneDimension v.y (v.y + v.height) rowStart rowEnd)).map
        (fun v => ⟨v.y, v.height⟩))
      rowStart rowEnd

/-- Whether the point `t` is covered by one of the closed-open segments. -/
def inSegs (segs : List (Int × Int)) (t : Int) : Bool :=
  segs.any (fun p => p.1 ≤ t && t < p.2)

/-- Replaces the line kind of an explicit vertical segment. -/
def setVerticalLineKind (k : CellBorderLine) (v : JsBorderVertical) : JsBorderVertical :=
  { v with line := k }

/-- The argument record of one `drawScreenVerticalLine` call. -/
structure VCall where
  rowStart : Int
  rowEnd : Int
  column : Int
  border : BorderStyleTimestamp
  overrides : Option OverrideMap
deriving DecidableEq

/-- The argument record of one `drawScreenHorizontalLine` call. -/
structure HCall where
  columnStart : Int
  columnEnd : Int
  row : Int
  border : BorderStyleTimestamp
  overrides : Option OverrideMap
deriving DecidableEq

/-- One screen-line drawing call issued by the sheet-border renderer. -/
inductive Call where
  | v : VCall → Call
  | h : HCall → Call
deriving DecidableEq

/-- The border style carried by a call. -/
def callBorder : Call → BorderStyleTimestamp
  | Call.v c => c.border
  | Call.h c => c.border

/-- The inclusive integer range `[lo, hi]` as a list
(the `for` loops of `drawSheetBorders`). -/
def intRangeIncl (lo hi : Int) : List Int :=
  (List.range (hi + 1 - lo).toNat).map (fun i => lo + (i : Int))

/-- The visible placement indices derived from the viewport together with
the zoom scale and the pixel bounds used for culling.  The coordinate-offset
service that produces the placements is treated as opaque; its outputs are
the four indices. -/
structure Viewport where
  colStart : Int
  colEnd : Int
  rowStart : Int
  rowEnd : Int
  scale : ℚ
  boundLeft : Int
  boundTop : Int
  boundRight : Int
  boundBottom : Int
deriving DecidableEq

/-- The `right` declaration of the column left of `x`
(`borders.columns[(xNumber - 1).toString()]?.right`). -/
def neighborRight (m : Option OverrideMap) (x : Int) : Option BorderStyleTimestamp :=
  (lookupOverride m (x - 1)).bind (fun c => c.right)

/-- The `left` declaration of the column right of `x`
(`borders.columns[(xNumber + 1).toString()]?.left`). -/
def neighborLeft (m : Option OverrideMap) (x : Int) : Option BorderStyleTimestamp :=
  (lookupOverride m (x + 1)).bind (fun c => c.left)

/-- The `bottom` declaration of the row above `y`
(`borders.rows[(yNumber - 1).toString()]?.bottom`). -/
def neighborBottom (m : Option OverrideMap) (y : Int) : Option BorderStyleTimestamp :=
  (lookupOverride m (y - 1)).bind (fun c => c.bottom)

/-- The `top` declaration of the row below `y`
(`borders.rows[(yNumber + 1).toString()]?.top`). -/
def neighborTop (m : Option OverrideMap) (y : Int) : Option BorderStyleTimestamp :=
  (lookupOverride m (y + 1)).bind (fun c => c.top)

/-- The call issued for a column entry's `left` edge
(Borders.ts lines 204-211): drawn at the column's left boundary when
present and not clear, unless the previous column has a `right` entry whose
timestamp is not beaten. -/
def columnLeftCalls (b : JsBordersSheet) (vp : Viewport) (x : Int)
    (cell : BorderStyleCell) : List Call :=
  match cell.left with
  | none => []
  | some left =>
    if left.line = CellBorderLine.clear then []
    else
      match neighborRight b.columns x with
      | none => [Call.v ⟨vp.rowStart, vp.rowEnd + 1, x, left, b.rows⟩]
      | some right =>
        if left.timestamp > right.timestamp then
          [Call.v ⟨vp.rowStart, vp.rowEnd + 1, x, left, b.rows⟩]
        else []

/-- The call issued for a column entry's `right` edge
(Borders.ts lines 212-219): drawn at the boundary `x + 1` when present and
not clear, unless the next column has a `left` entry whose timestamp is
not beaten. -/
def columnRightCalls (b : JsBordersSheet) (vp : Viewport) (x : Int)
    (cell : BorderStyleCell) : List Call :=
  match cell.right with
  | none => []
  | some right =>
    if right.line = CellBorderLine.clear then []
    else
      match neighborLeft b.columns x with
      | none => [Call.v ⟨vp.rowStart, vp.rowEnd + 1, x + 1, right, b.rows⟩]
      | some left =>
        if right.timestamp > left.timestamp then
          [Call.v ⟨vp.rowStart, vp.rowEnd + 1, x + 1, right, b.rows⟩]
        else []

/-- The calls issued for a column entry's `top` edge
(Borders.ts lines 220-225): one unit-length horizontal line per visible
row, with no override obstruction source. -/
def columnTopCalls (vp : Viewport) (x : Int) (cell : BorderStyleCell) : List Call :=
  match cell.top with
  | none => []
  | some top =>
    if top.line = CellBorderLine.clear then []
    else (intRangeIncl vp.rowStart (vp.rowEnd + 1)).map
      (fun y => Call.h ⟨x, x + 1, y, top, none⟩)

/-- The calls issued for a column entry's `bottom` edge
(Borders.ts lines 226-231). -/
def columnBottomCalls (vp : Viewport) (x : Int) (cell : BorderStyleCell) : List Call :=
  match cell.bottom with
  | none => []
  | some bottom =>
    if bottom.line = CellBorderLine.clear then []
    else (intRangeIncl vp.rowStart (vp.rowEnd + 1)).map
      (fun y => Call.h ⟨x, x + 1, y, bottom, none⟩)

/-- The calls issued for one entry of the columns map
(Borders.ts lines 199-234): nothing when the index is outside the visible
column range, otherwise the left, right, top and bottom contributions in
source order. -/
def columnEntryCalls (b : JsBordersSheet) (vp : Viewport) (x : Int)
    (cell : BorderStyleCell) : List Call :=
  if vp.colStart ≤ x ∧ x ≤ vp.colEnd then
    columnLeftCalls b vp x cell ++ columnRightCalls b vp x cell ++
    columnTopCalls vp x cell ++ columnBottomCalls vp x cell
  else []

/-- The call issued for a row entry's `top` edge
(Borders.ts lines 243-250). -/
def rowTopCalls (b : JsBordersSheet) (vp : Viewport) (y : Int)
    (cell : BorderStyleCell) : List Call :=
  match cell.top with
  | none => []
  | some top =>
    if top.line = CellBorderLine.clear then []
    else
      match neighborBottom b.rows y with
      | none => [Call.h ⟨vp.colStart, vp.colEnd + 1, y, top, b.columns⟩]
      | some bottom =>
        if top.timestamp > bottom.timestamp then
          [Call.h ⟨vp.colStart, vp.colEnd + 1, y, top, b.columns⟩]
        else []

/-- The call issued for a row entry's `bottom` edge
(Borders.ts lines 251-264). -/
def rowBottomCalls (b : JsBordersSheet) (vp : Viewport) (y : Int)
    (cell : BorderStyleCell) : List Call :=
  match cell.bottom with
  | none => []
  | some bottom =>
    if bottom.line = CellBorderLine.clear then []
    else
      match neighborTop b.rows y with
      | none => [Call.h ⟨vp.colStart, vp.colEnd + 1, y + 1, bottom, b.columns⟩]
      | some top =>
        if bottom.timestamp > top.timestamp then
          [Call.h ⟨vp.colStart, vp.colEnd + 1, y + 1, bottom, b.columns⟩]
        else []

/-- The calls issued for a row entry's `left` edge
(Borders.ts lines 265-270): one unit-length vertical line per visible
column, with no override obstruction source. -/
def rowLeftCalls (vp : Viewport) (y : Int) (cell : BorderStyleCell) : List Call :=
  match cell.left with
  | none => []
  | some left =>
    if left.line = CellBorderLine.clear then []
    else (intRangeIncl vp.colStart (vp.colEnd + 1)).map
      (fun x => Call.v ⟨y, y + 1, x, left, none⟩)

/-- The calls issued for a row entry's `right` edge
(Borders.ts lines 271-276). -/
def rowRightCalls (vp : Viewport) (y : Int) (cell : BorderStyleCell) : List Call :=
  match cell.right with
  | none => []
  | some right =>
    if right.line = CellBorderLine.clear then []
    else (intRangeIncl vp.colStart (vp.colEnd + 1)).map
      (fun x => Call.v ⟨y, y + 1, x, right, none⟩)

/-- The calls issued for one entry of the rows map
(Borders.ts lines 237-279). -/
def rowEntryCalls (b : JsBordersSheet) (vp : Viewport) (y : Int)
    (cell : BorderStyleCell) : List Call :=
  if vp.rowStart ≤ y ∧ y ≤ vp.rowEnd then
    rowTopCalls b vp y cell ++ rowBottomCalls b vp y cell ++
    rowLeftCalls vp y cell ++ rowRightCalls vp y cell
  else []

/-- Picks the more recently set of two optional declarations
(the `all.top`/`all.bottom` and `all.left`/`all.right` selection of
`drawAll`, Borders.ts lines 329-336 and 345-352; a tie picks the second). -/
def chooseLater (a b : Option BorderStyleTimestamp) : Option BorderStyleTimestamp :=
  match a, b with
  | some x, some y => some (if x.timestamp > y.timestamp then x else y)
  | some x, none => some x
  | none, some y => some y
  | none, none => none

/-- The calls issued by `drawAll` (Borders.ts lines 317-359): the sheet-wide
default draws one horizontal line per visible row (passing the rows map as
the override obstruction source) and one vertical line per visible column
(passing the columns map). -/
def allCalls (b : JsBordersSheet) (vp : Viewport) : List Call :=
  match b.all with
  | none => []
  | some all =>
    (match chooseLater all.top all.bottom with
     | none => []
     | some horizontal =>
       (intRangeIncl vp.rowStart vp.rowEnd).map
         (fun y => Call.h ⟨vp.colStart, vp.colEnd + 1, y, horizontal, b.rows⟩)) ++
    (match chooseLater all.left all.right with
     | none => []
     | some vertical =>
       (intRangeIncl vp.colStart vp.colEnd).map
         (fun x => Call.v ⟨vp.rowStart, vp.rowEnd + 1, x, vertical, b.columns⟩))

/-- All screen-line calls issued by one run of `drawSheetBorders` for a
present dataset, in source order: the all tier, then the columns map, then
the rows map. -/
def sheetBorderCalls (b : JsBordersSheet) (vp : Viewport) : List Call :=
  allCalls b vp ++
  (match b.columns with
   | none => []
   | some m => m.flatMap (fun p => columnEntryCalls b vp p.1 p.2)) ++
  (match b.rows with
   | none => []
   | some m => m.flatMap (fun p => rowEntryCalls b vp p.1 p.2))

/-- The coordinate-offset service of the owning sheet, treated as opaque
pure lookups (`getColumnX`, `getRowY`, `getCellOffsets`). -/
structure Sheet where
  colX : Int → Int
  rowY : Int → Int
  cellX : Int → Int → Int
  cellY : Int → Int → Int

/-- A drawable primitive: a positioned rectangle with its line style.
Modelled from the spec: `drawCellBorder` (`drawBorders.ts`, not in the
provided sources) produces, per resolved sub-interval, a rectangle with an
associated line style (spec section 6). -/
structure DrawOp where
  x : Int
  y : Int
  w : Int
  h : Int
  horizontal : Bool
  line : CellBorderLine
  color : Nat
deriving DecidableEq

/-- The rectangles emitted for one screen-line call: the call's span is
resolved into sub-intervals, each converted to pixels through the
coordinate-offset service (Borders.ts lines 108-117 and 162-171). -/
def callToOps (sh : Sheet) (hsegs : Option (List JsBorderHorizontal))
    (vsegs : Option (List JsBorderVertical)) : Call → List DrawOp
  | Call.v c =>
    (screenVerticalSegments vsegs c.overrides c.rowStart c.rowEnd c.column).map
      (fun p =>
        ⟨sh.colX c.column, sh.rowY p.1, 0, sh.rowY p.2 - sh.rowY p.1,
          false, c.border.line, c.border.color⟩)
  | Call.h c =>
    (screenHorizontalSegments hsegs c.overrides c.columnStart c.columnEnd c.row).map
      (fun p =>
        ⟨sh.colX p.1, sh.rowY c.row, sh.colX p.2 - sh.colX p.1, 0,
          true, c.border.line, c.border.color⟩)

/-- All sheet-tier rectangles emitted by one run of `drawSheetBorders`. -/
def sheetBorderOps (sh : Sheet) (b : JsBordersSheet) (vp : Viewport) : List DrawOp :=
  (sheetBorderCalls b vp).flatMap (callToOps sh b.horizontal b.vertical)

/-- The segment-tier rectangles emitted by `drawHorizontal` and
`drawVertical` (Borders.ts lines 283-315): every stored explicit segment
whose line kind is not clear is drawn whole, positioned through
`getCellOffsets`. -/
def cellBorderOps (sh : Sheet) (b : JsBordersSheet) : List DrawOp :=
  (match b.horizontal with
   | none => []
   | some hs => hs.flatMap (fun bd =>
       if bd.line = CellBorderLine.clear then []
       else
         [⟨sh.cellX bd.x bd.y, sh.cellY bd.x bd.y,
           sh.cellX (bd.x + bd.width) bd.y - sh.cellX bd.x bd.y,
           sh.cellY (bd.x + bd.width) bd.y - sh.cellY bd.x bd.y,
           true, bd.line, bd.color⟩])) ++
  (match b.vertical with
   | none => []
   | some vs => vs.flatMap (fun bd =>
       if bd.line = CellBorderLine.clear then []
       else
         [⟨sh.cellX bd.x bd.y, sh.cellY bd.x bd.y,
           sh.cellX bd.x (bd.y + bd.height) - sh.cellX bd.x bd.y,
           sh.cellY bd.x (bd.y + bd.height) - sh.cellY bd.x bd.y,
           false, bd.line, bd.color⟩]))

/-- A pooled sprite retained for culling: its logical rectangle and its
visibility flag (`BorderCull`). -/
structure CullSprite where
  x : Int
  y : Int
  w : Int
  h : Int
  visible : Bool
deriving DecidableEq

/-- The cull entry created when a segment-tier rectangle is drawn;
a fresh sprite is visible. -/
def cullOf (op : DrawOp) : CullSprite := ⟨op.x, op.y, op.w, op.h, true⟩

/-- Modelled from the spec: the rectangle-intersection test used by the
culling pass (`Rectangle.intersects` of the host rendering library),
spec section 4.6: each pooled primitive is tested for intersection with
the current viewport rectangle. -/
def rectIntersectsBounds (s : CullSprite) (vp : Viewport) : Bool :=
  s.x < vp.boundRight && vp.boundLeft < s.x + s.w &&
  s.y < vp.boundBottom && vp.boundTop < s.y + s.h

/-- The mutable state of the `Borders` renderer: the owned sheet id, the
stored dataset, the children of the `sheetLines` and `cellLines`
containers, the pooled cull entries, the sheet-tier visibility and alpha,
the dirty flag, and the host viewport's dirty flag. -/
structure RenderState where
  sheetId : String
  borders : Option JsBordersSheet
  sheetChildren : List DrawOp
  cellChildren : List DrawOp
  spriteLines : List CullSprite
  sheetVisible : Bool
  sheetAlpha : ℚ
  dirty : Bool
  vpDirty : Bool
deriving DecidableEq

/-- `drawSheetBorders` (Borders.ts lines 176-281) as a state transformer:
both containers are emptied and the host viewport marked dirty; with no
dataset nothing more happens; otherwise the all tier, the explicit-segment
tier and the column/row tiers are redrawn, the segment-tier rectangles
also being appended to the cull pool. -/
def drawSheetBordersState (sh : Sheet) (vp : Viewport) (st : RenderState) : RenderState :=
  match st.borders with
  | none => { st with cellChildren := [], sheetChildren := [], vpDirty := true }
  | some b =>
    { st with
      vpDirty := true
      sheetChildren := sheetBorderOps sh b vp
      cellChildren := cellBorderOps sh b
      spriteLines := st.spriteLines ++ (cellBorderOps sh b).map cullOf }

/-- The `bordersSheet` event handler `drawSheetCells`
(Borders.ts lines 361-369): consumed only when the delivered sheet id
matches the owned sheet; the dataset is replaced wholesale, the
segment-tier container is rebuilt and the renderer marked dirty. -/
def drawSheetCellsState (sh : Sheet) (sheetId : String) (newBorders : Option JsBordersSheet)
    (st : RenderState) : RenderState :=
  if sheetId = st.sheetId then
    let cells := match newBorders with
      | none => []
      | some b => cellBorderOps sh b
    { st with
      borders := newBorders
      cellChildren := cells
      spriteLines := st.spriteLines ++ cells.map cullOf
      dirty := true }
  else st

/-- The zoom scale below which sheet borders are hidden
(`SCALE_TO_SHOW_SHEET_BORDERS = 0.15`). -/
def SCALE_TO_SHOW_SHEET_BORDERS : ℚ := 15 / 100

/-- The width of the zoom fade band (`FADE_SCALE = 0.1`). -/
def FADE_SCALE : ℚ := 1 / 10

/-- The culling pass (Borders.ts lines 371-376): every pooled sprite's
visibility is set to whether its rectangle intersects the viewport. -/
def cullState (vp : Viewport) (st : RenderState) : RenderState :=
  { st with
    spriteLines := st.spriteLines.map
      (fun s => { s with visible := rectIntersectsBounds s vp }) }

/-- `update` (Borders.ts lines 378-394): a clean renderer returns
immediately; below the visibility threshold the sheet tier is hidden
without redrawing; otherwise the sheet tier is shown, redrawn, and its
alpha set from the fade band; finally the dirty flag is cleared and the
cull pass runs. -/
def updateState (sh : Sheet) (vp : Viewport) (st : RenderState) : RenderState :=
  if !st.dirty && !st.vpDirty then st
  else
    let st1 :=
      if vp.scale < SCALE_TO_SHOW_SHEET_BORDERS then
        { st with sheetVisible := false }
      else
        let st2 := drawSheetBordersState sh vp { st with sheetVisible := true }
        if vp.scale < SCALE_TO_SHOW_SHEET_BORDERS + FADE_SCALE then
          { st2 with sheetAlpha := (vp.scale - SCALE_TO_SHOW_SHEET_BORDERS) / FADE_SCALE }
        else { st2 with sheetAlpha := 1 }
    cullState vp { st1 with dirty := false }

/-- The throwing sheet accessor (Borders.ts lines 60-64): looking up the
owned sheet id in the global registry, failing loudly when the sheet no
longer exists. -/
def sheetGetter (registry : String → Option Sheet) (id : String) : Except String Sheet :=
  match registry id with
  | none => Except.error "Expected sheet to be defined in CellsBorders.sheet"
  | some s => Except.ok s

/-- A sheet-tier redraw routed through the throwing accessor: every
operation that reads the owning sheet's coordinate offsets first resolves
the sheet. -/
def sheetBorderOpsChecked (registry : String → Option Sheet) (id : String)
    (b : JsBordersSheet) (vp : Viewport) : Except String (List DrawOp) :=
  (sheetGetter registry id).map (fun sh => sheetBorderOps sh b vp)

/-- A single screen-line call routed through the throwing accessor. -/
def callToOpsChecked (registry : String → Option Sheet) (id : String)
    (hsegs : Option (List JsBorderHorizontal)) (vsegs : Option (List JsBorderVertical))
    (c : Call) : Except String (List DrawOp) :=
  (sheetGetter registry id).map (fun sh => callToOps sh hsegs vsegs c)

/-- A segment-tier redraw routed through the throwing accessor. -/
def cellBorderOpsChecked (registry : String → Option Sheet) (id : String)
    (b : JsBordersSheet) : Except String (List DrawOp) :=
  (sheetGetter registry id).map (fun sh => cellBorderOps sh b)

/-- A styled timestamped declaration with a fixed color, for concrete
datasets. -/
def bst (k : CellBorderLine) (ts : Int) : BorderStyleTimestamp := ⟨0, k, ts⟩

/-- A cell override declaring only a `right` edge. -/
def cellR (b : BorderStyleTimestamp) : BorderStyleCell := ⟨none, none, none, some b⟩

/-- A cell override declaring only a `left` edge. -/
def cellL (b : BorderStyleTimestamp) : BorderStyleCell := ⟨none, none, some b, none⟩

/-- A dataset with only a columns map. -/
def dsOfColumns (cols : OverrideMap) : JsBordersSheet := ⟨none, some cols, none, none, none⟩

/-- Two adjacent columns claiming the same boundary with equal timestamps:
column 0 declares `right` and column 1 declares `left`, both solid, both at
timestamp 5. -/
def dsTie : JsBordersSheet :=
  dsOfColumns [(0, cellR (bst CellBorderLine.line1 5)), (1, cellL (bst CellBorderLine.line1 5))]

/-- Column 0 declares a `clear` right edge at timestamp 10; column 1
declares a solid left edge at timestamp 1. -/
def dsClearNeighbor : JsBordersSheet :=
  dsOfColumns [(0, cellR (bst CellBorderLine.clear 10)), (1, cellL (bst CellBorderLine.line1 1))]

/-- A viewport showing columns 0 to 2 and row 0. -/
def vp0 : Viewport := ⟨0, 2, 0, 0, 1, 0, 0, 100, 100⟩

/-- The viewport of `vp0` at a zoom scale inside the fade band. -/
def vpFade : Viewport := ⟨0, 2, 0, 0, 1 / 5, 0, 0, 100, 100⟩

/-- A concrete coordinate-offset service. -/
def sh0 : Sheet := ⟨fun i => 10 * i, fun i => 20 * i, fun i j => 10 * i + j, fun i j => 20 * j + i⟩

/-- A cell override with all four edges set at distinct timestamps. -/
def cellFull : BorderStyleCell :=
  ⟨some (bst CellBorderLine.line1 3), some (bst CellBorderLine.line2 4),
   some (bst CellBorderLine.line3 5), some (bst CellBorderLine.dotted 6)⟩

/-- A dataset with a fully populated override at column 0 and at row 0. -/
def dsFull : JsBordersSheet := ⟨none, some [(0, cellFull)], some [(0, cellFull)], none, none⟩

/-- One explicit vertical segment at column 0, rows 1 to 2. -/
def vs0 : Option (List JsBorderVertical) := some [⟨0, 1, 1, CellBorderLine.line1, 0⟩]

/-- One explicit horizontal segment at row 0, columns 1 to 2. -/
def hs0 : Option (List JsBorderHorizontal) := some [⟨1, 0, 1, CellBorderLine.line1, 0⟩]

/-- A rows map with a single `left` declaration at row 2 and timestamp 1. -/
def rowsLowTs : OverrideMap := [(2, cellL (bst CellBorderLine.line1 1))]

/-- A rows map with `left` declarations at row 1 (timestamp 10) and row 3
(timestamp 1). -/
def rowsTwo : OverrideMap :=
  [(1, cellL (bst CellBorderLine.line1 10)), (3, cellL (bst CellBorderLine.line1 1))]

/-- A clean renderer state owning sheet id `a`. -/
def stClean : RenderState := ⟨"a", none, [], [], [], true, 1, false, false⟩

/-- A dirty renderer state owning sheet id `a`. -/
def stDirty : RenderState := ⟨"a", some dsTie, [], [], [], true, 1, true, false⟩

theorem popConsume_eq_consumeDescending (os : List Obstruction) (l : List (Int × Int))
    (c : Option Int) (s e : Int) :
    popConsume os l c s e = consumeDescending os.reverse l c s e := by
  induction os using List.reverseRecOn generalizing l c with
  | nil => rfl
  | append_singleton as a ih =>
    simp only [popConsume, List.length_append, List.length_cons, List.length_nil,
      List.reverse_append, List.reverse_cons, List.reverse_nil, List.nil_append,
      List.cons_append]
    rw [popConsumeAux]
    simp only [List.getLast?_concat, List.dropLast_concat]
    rw [consumeDescending]
    exact ih _ _

theorem consumeDescending_some (os : List Obstruction) (l : List (Int × Int)) (x : Int)
    (s e : Int) : ∃ y, (consumeDescending os l (some x) s e).2 = some y := by
  induction os generalizing l x with
  | nil => exact ⟨x, rfl⟩
  | cons o rest ih =>
    rw [consumeDescending]
    by_cases ho : o.pos + o.len ≤ (Option.getD (some x) s)
    · simp only [divideLine, if_pos ho]
      exact ih l x
    · simp only [divideLine, if_neg ho]
      exact ih _ _

theorem consumeDescending_none (os : List Obstruction) (l : List (Int × Int))
    (c : Option Int) (s e : Int) (h : (consumeDescending os l c s e).2 = none) :
    consumeDescending os l c s e = (l, c) := by
  induction os generalizing l c with
  | nil => rfl
  | cons o rest ih =>
    rw [consumeDescending] at h ⊢
    by_cases ho : o.pos + o.len ≤ (Option.getD c s)
    · simp only [divideLine, if_pos ho] at h ⊢
      exact ih l c h
    · simp only [divideLine, if_neg ho] at h ⊢
      obtain ⟨y, hy⟩ := consumeDescending_some rest _ (min (o.pos + o.len) e) s e
      rw [h] at hy
      exact absurd hy (by simp)

theorem resolveOverlaps_eq_finalize (obs : List Obstruction) (s e : Int) :
    resolveOverlaps obs s e =
      finalizeSegments s e
        (consumeDescending (sortObstructions obs).reverse [] none s e) := by
  simp only [resolveOverlaps]
  rw [popConsume_eq_consumeDescending]
  rcases hR : consumeDescending (sortObstructions obs).reverse [] none s e with ⟨l1, c1⟩
  cases c1 with
  | none =>
    have h0 : consumeDescending (sortObstructions obs).reverse [] none s e = ([], none) :=
      consumeDescending_none _ _ _ _ _ (by rw [hR])
    rw [hR] at h0
    simp only [Prod.mk.injEq] at h0
    simp [finalizeSegments, h0.1]
  | some c => simp [finalizeSegments]

theorem sorted_reverse_descending (l : List Obstruction) :
    (sortObstructions l).reverse.Pairwise (fun a b => b.pos ≤ a.pos) := by
  rw [List.pairwise_reverse]
  exact List.sorted_insertionSort obsLE l

theorem collectVertical_isSome (vs : Option (List JsBorderVertical))
    (ovr : Option OverrideMap) (rs re col : Int)
    (h : collectVerticalObstructions vs ovr rs re col ≠ []) :
    (vs.isSome || ovr.isSome) = true := by
  cases vs <;> cases ovr <;>
    simp_all [collectVerticalObstructions, findPerpendicularVerticalLines]

theorem collectHorizontal_isSome (hs : Option (List JsBorderHorizontal))
    (ovr : Option OverrideMap) (cs ce row : Int)
    (h : collectHorizontalObstructions hs ovr cs ce row ≠ []) :
    (hs.isSome || ovr.isSome) = true := by
  cases hs <;> cases ovr <;>
    simp_all [collectHorizontalObstructions, findPerpendicularHorizontalLines]

/-- C1: over a span with a non-empty set of collected obstructions, both
screen-line resolvers sort the obstructions ascending by position, consume
them from the greatest position downward through `divideLine` while
accumulating a cursor (the consumption order is descending), and finally
emit the whole span as one segment when the cursor was never set, and
otherwise the remainder `[cursor, end)` exactly when `cursor < end`. -/
theorem screenLines_sort_and_consume_descending
    (vs : Option (List JsBorderVertical)) (ovrV : Option OverrideMap)
    (hs : Option (List JsBorderHorizontal)) (ovrH : Option OverrideMap)
    (rs re col cs ce row : Int)
    (hV : collectVerticalObstructions vs ovrV rs re col ≠ [])
    (hH : collectHorizontalObstructions hs ovrH cs ce row ≠ []) :
    ((sortObstructions (collectVerticalObstructions vs ovrV rs re col)).reverse.Pairwise
        (fun a b => b.pos ≤ a.pos)
      ∧ screenVerticalSegments vs ovrV rs re col =
          finalizeSegments rs re
            (consumeDescending
              (sortObstructions (collectVerticalObstructions vs ovrV rs re col)).reverse
              [] none rs re))
    ∧ ((sortObstructions (collectHorizontalObstructions hs ovrH cs ce row)).reverse.Pairwise
        (fun a b => b.pos ≤ a.pos)
      ∧ screenHorizontalSegments hs ovrH cs ce row =
          finalizeSegments cs ce
            (consumeDescending
              (sortObstructions (collectHorizontalObstructions hs ovrH cs ce row)).reverse
              [] none cs ce)) := by
  refine ⟨⟨sorted_reverse_descending _, ?_⟩, ⟨sorted_reverse_descending _, ?_⟩⟩
  · rw [screenVerticalSegments, if_pos (collectVertical_isSome vs ovrV rs re col hV)]
    exact resolveOverlaps_eq_finalize _ _ _
  · rw [screenHorizontalSegments, if_pos (collectHorizontal_isSome hs ovrH cs ce row hH)]
    exact resolveOverlaps_eq_finalize _ _ _

theorem screenLines_witness :
    collectVerticalObstructions vs0 none 0 4 0 ≠ [] ∧
    collectHorizontalObstructions hs0 none 0 4 0 ≠ [] ∧
    (((sortObstructions (collectVerticalObstructions vs0 none 0 4 0)).reverse.Pairwise
        (fun a b => b.pos ≤ a.pos)
      ∧ screenVerticalSegments vs0 none 0 4 0 =
          finalizeSegments 0 4
            (consumeDescending
              (sortObstructions (collectVerticalObstructions vs0 none 0 4 0)).reverse
              [] none 0 4))
    ∧ ((sortObstructions (collectHorizontalObstructions hs0 none 0 4 0)).reverse.Pairwise
        (fun a b => b.pos ≤ a.pos)
      ∧ screenHorizontalSegments hs0 none 0 4 0 =
          finalizeSegments 0 4
            (consumeDescending
              (sortObstructions (collectHorizontalObstructions hs0 none 0 4 0)).reverse
              [] none 0 4))) :=
  ⟨by decide, by decide,
    screenLines_sort_and_consume_descending vs0 none hs0 none 0 4 0 0 4 0
      (by decide) (by decide)⟩

/-- C2: the resolver never reads timestamps, so the emitted sub-intervals
plus the obstructions with timestamp at least the drawn edge's timestamp do
not cover the requested span.  Drawing a vertical line over rows `[0, 4)`
for an edge with timestamp 5 against a single row obstruction at row 2
with timestamp 1 emits `[0, 2)` and `[3, 4)`: the unit `[2, 3)` is covered
neither by the emitted segments nor by any obstruction of timestamp at
least 5 (there is none), leaving a gap.  With two row obstructions (row 1
at timestamp 10, row 3 at timestamp 1) only the greatest is subtracted:
the emitted `[0, 3)` double-covers the obstruction `[1, 2)` and the unit
`[3, 4)` is a gap. -/
theorem coverage_minus_obstructions_fails :
    screenVerticalSegments none (some rowsLowTs) 0 4 7 = [(0, 2), (3, 4)]
    ∧ inSegs (screenVerticalSegments none (some rowsLowTs) 0 4 7) 2 = false
    ∧ screenVerticalSegments none (some rowsTwo) 0 4 7 = [(0, 3)]
    ∧ inSegs (screenVerticalSegments none (some rowsTwo) 0 4 7) 1 = true
    ∧ inSegs (screenVerticalSegments none (some rowsTwo) 0 4 7) 3 = false := by
  decide

/-- C5: with an unchanged dataset and viewport, running the sheet-border
redraw twice leaves exactly the rectangles of a single run in both
containers, because each run empties them before redrawing. -/
theorem drawSheetBorders_idempotent (sh : Sheet) (vp : Viewport) (st : RenderState) :
    (drawSheetBordersState sh vp (drawSheetBordersState sh vp st)).sheetChildren =
      (drawSheetBordersState sh vp st).sheetChildren
    ∧ (drawSheetBordersState sh vp (drawSheetBordersState sh vp st)).cellChildren =
      (drawSheetBordersState sh vp st).cellChildren := by
  cases hb : st.borders <;> simp [drawSheetBordersState, hb]

/-- C9: a clean renderer (dirty flag unset and viewport not dirty) is left
completely unchanged by `update`: no redraw, no visibility or alpha change,
no culling. -/
theorem update_clean_noop (sh : Sheet) (vp : Viewport) (st : RenderState)
    (h1 : st.dirty = false) (h2 : st.vpDirty = false) :
    updateState sh vp st = st := by
  simp [updateState, h1, h2]

theorem update_clean_noop_witness :
    stClean.dirty = false ∧ stClean.vpDirty = false ∧
    updateState sh0 vp0 stClean = stClean :=
  ⟨rfl, rfl, update_clean_noop sh0 vp0 stClean rfl rfl⟩

/-- C6: on a redraw, a zoom scale strictly below the visibility threshold
hides the sheet tier without recomputing its rectangles; inside the fade
band the sheet-tier alpha is the linear interpolation
`(scale - threshold) / fadeWidth`; at or beyond the end of the band the
alpha is 1. -/
theorem update_zoom_fade (sh : Sheet) (vp : Viewport) (st : RenderState)
    (hd : st.dirty = true ∨ st.vpDirty = true) :
    (vp.scale < SCALE_TO_SHOW_SHEET_BORDERS →
      (updateState sh vp st).sheetVisible = false
      ∧ (updateState sh vp st).sheetChildren = st.sheetChildren
      ∧ (updateState sh vp st).borders = st.borders)
    ∧ (SCALE_TO_SHOW_SHEET_BORDERS ≤ vp.scale →
        vp.scale < SCALE_TO_SHOW_SHEET_BORDERS + FADE_SCALE →
        (updateState sh vp st).sheetAlpha =
          (vp.scale - SCALE_TO_SHOW_SHEET_BORDERS) / FADE_SCALE)
    ∧ (SCALE_TO_SHOW_SHEET_BORDERS + FADE_SCALE ≤ vp.scale →
        (updateState sh vp st).sheetAlpha = 1) := by
  have hcond : (!st.dirty && !st.vpDirty) = false := by
    rcases hd with h | h <;> simp [h]
  refine ⟨fun hlo => ?_, fun hmid1 hmid2 => ?_, fun hhi => ?_⟩
  · simp [updateState, hcond, if_pos hlo, cullState]
  · simp [updateState, hcond, if_neg (not_lt.mpr hmid1), if_pos hmid2, cullState]
  · have h1 : ¬ vp.scale < SCALE_TO_SHOW_SHEET_BORDERS := by
      intro hlt
      have : SCALE_TO_SHOW_SHEET_BORDERS + FADE_SCALE ≤ SCALE_TO_SHOW_SHEET_BORDERS :=
        le_trans hhi (le_of_lt hlt)
      simp [FADE_SCALE] at this
      exact absurd this (by norm_num)
    simp [updateState, hcond, if_neg h1, if_neg (not_lt.mpr hhi), cullState]

theorem update_zoom_fade_witness :
    (stDirty.dirty = true ∨ stDirty.vpDirty = true) ∧
    (((1 : ℚ) / 5 < SCALE_TO_SHOW_SHEET_BORDERS →
      (updateState sh0 vpFade stDirty).sheetVisible = false
      ∧ (updateState sh0 vpFade stDirty).sheetChildren = stDirty.sheetChildren
      ∧ (updateState sh0 vpFade stDirty).borders = stDirty.borders)
    ∧ (SCALE_TO_SHOW_SHEET_BORDERS ≤ (1 : ℚ) / 5 →
        (1 : ℚ) / 5 < SCALE_TO_SHOW_SHEET_BORDERS + FADE_SCALE →
        (updateState sh0 vpFade stDirty).sheetAlpha =
          ((1 : ℚ) / 5 - SCALE_TO_SHOW_SHEET_BORDERS) / FADE_SCALE)
    ∧ (SCALE_TO_SHOW_SHEET_BORDERS + FADE_SCALE ≤ (1 : ℚ) / 5 →
        (updateState sh0 vpFade stDirty).sheetAlpha = 1)) :=
  ⟨Or.inl rfl, update_zoom_fade sh0 vpFade stDirty (Or.inl rfl)⟩

/-- C7: the `bordersSheet` event is consumed only for the owned sheet id —
any other id leaves the whole state unchanged; delivering `undefined` for
the owned sheet clears the stored dataset and the segment-tier drawables,
and a subsequent sheet-border redraw emits nothing. -/
theorem bordersSheet_event (sh : Sheet) (st : RenderState) (sid : String)
    (nb : Option JsBordersSheet) :
    (sid ≠ st.sheetId → drawSheetCellsState sh sid nb st = st)
    ∧ (sid = st.sheetId → nb = none →
        (drawSheetCellsState sh sid nb st).borders = none
        ∧ (drawSheetCellsState sh sid nb st).cellChildren = []
        ∧ (drawSheetCellsState sh sid nb st).spriteLines = st.spriteLines
        ∧ ∀ vp, (drawSheetBordersState sh vp (drawSheetCellsState sh sid nb st)).sheetChildren = []
            ∧ (drawSheetBordersState sh vp (drawSheetCellsState sh sid nb st)).cellChildren = []) := by
  constructor
  · intro hne
    simp [drawSheetCellsState, hne]
  · intro heq hnone
    subst heq hnone
    refine ⟨?_, ?_, ?_, fun vp => ⟨?_, ?_⟩⟩ <;>
      simp [drawSheetCellsState, drawSheetBordersState]

theorem bordersSheet_event_witness :
    drawSheetCellsState sh0 "b" none stDirty = stDirty
    ∧ (drawSheetCellsState sh0 "a" none stDirty).borders = none
    ∧ (drawSheetCellsState sh0 "a" none stDirty).cellChildren = []
    ∧ (drawSheetBordersState sh0 vp0 (drawSheetCellsState sh0 "a" none stDirty)).sheetChildren = [] :=
  ⟨(bordersSheet_event sh0 stDirty "b" none).1 (by decide),
    ((bordersSheet_event sh0 stDirty "a" none).2 rfl rfl).1,
    ((bordersSheet_event sh0 stDirty "a" none).2 rfl rfl).2.1,
    (((bordersSheet_event sh0 stDirty "a" none).2 rfl rfl).2.2.2 vp0).1⟩

/-- C8: resolving the owning sheet when it no longer exists in the registry
fails loudly: the accessor returns an error, and so does every operation
that reads the sheet's coordinate offsets through it. -/
theorem sheet_lookup_fails_loudly (registry : String → Option Sheet) (id : String)
    (h : registry id = none) :
    sheetGetter registry id =
      Except.error "Expected sheet to be defined in CellsBorders.sheet"
    ∧ (∀ b vp, sheetBorderOpsChecked registry id b vp =
        Except.error "Expected sheet to be defined in CellsBorders.sheet")
    ∧ (∀ hs vs c, callToOpsChecked registry id hs vs c =
        Except.error "Expected sheet to be defined in CellsBorders.sheet")
    ∧ (∀ b, cellBorderOpsChecked registry id b =
        Except.error "Expected sheet to be defined in CellsBorders.sheet") := by
  refine ⟨?_, fun b vp => ?_, fun hs vs c => ?_, fun b => ?_⟩ <;>
    simp [sheetGetter, sheetBorderOpsChecked, callToOpsChecked, cellBorderOpsChecked,
      Except.map, h]

theorem sheet_lookup_fails_loudly_witness :
    ((fun _ : String => (none : Option Sheet)) "a") = none
    ∧ sheetGetter (fun _ => none) "a" =
        Except.error "Expected sheet to be defined in CellsBorders.sheet"
    ∧ sheetBorderOpsChecked (fun _ => none) "a" dsTie vp0 =
        Except.error "Expected sheet to be defined in CellsBorders.sheet" :=
  ⟨rfl, (sheet_lookup_fails_loudly (fun _ => none) "a" rfl).1,
    (sheet_lookup_fails_loudly (fun _ => none) "a" rfl).2.1 dsTie vp0⟩

theorem vcall_mem_columnLeftCalls_column (b : JsBordersSheet) (vp : Viewport) (x : Int)
    (cell : BorderStyleCell) (vc : VCall) (h : Call.v vc ∈ columnLeftCalls b vp x cell) :
    vc.column = x := by
  unfold columnLeftCalls at h
  repeat split at h
  all_goals simp_all
  all_goals obtain ⟨-, h⟩ := h
  all_goals split at h <;> simp_all

theorem vcall_mem_columnRightCalls_column (b : JsBordersSheet) (vp : Viewport) (x : Int)
    (cell : BorderStyleCell) (vc : VCall) (h : Call.v vc ∈ columnRightCalls b vp x cell) :
    vc.column = x + 1 := by
  unfold columnRightCalls at h
  repeat split at h
  all_goals simp_all
  all_goals obtain ⟨-, h⟩ := h
  all_goals split at h <;> simp_all

theorem vcall_not_mem_columnTopCalls (vp : Viewport) (x : Int) (cell : BorderStyleCell)
    (vc : VCall) : Call.v vc ∉ columnTopCalls vp x cell := by
  intro h
  unfold columnTopCalls at h
  repeat split at h
  all_goals simp_all

theorem vcall_not_mem_columnBottomCalls (vp : Viewport) (x : Int) (cell : BorderStyleCell)
    (vc : VCall) : Call.v vc ∉ columnBottomCalls vp x cell := by
  intro h
  unfold columnBottomCalls at h
  repeat split at h
  all_goals simp_all

theorem hcall_mem_rowTopCalls_row (b : JsBordersSheet) (vp : Viewport) (y : Int)
    (cell : BorderStyleCell) (hc : HCall) (h : Call.h hc ∈ rowTopCalls b vp y cell) :
    hc.row = y := by
  unfold rowTopCalls at h
  repeat split at h
  all_goals simp_all
  all_goals obtain ⟨-, h⟩ := h
  all_goals split at h <;> simp_all

theorem hcall_mem_rowBottomCalls_row (b : JsBordersSheet) (vp : Viewport) (y : Int)
    (cell : BorderStyleCell) (hc : HCall) (h : Call.h hc ∈ rowBottomCalls b vp y cell) :
    hc.row = y + 1 := by
  unfold rowBottomCalls at h
  repeat split at h
  all_goals simp_all
  all_goals obtain ⟨-, h⟩ := h
  all_goals split at h <;> simp_all

theorem hcall_not_mem_rowLeftCalls (vp : Viewport) (y : Int) (cell : BorderStyleCell)
    (hc : HCall) : Call.h hc ∉ rowLeftCalls vp y cell := by
  intro h
  unfold rowLeftCalls at h
  repeat split at h
  all_goals simp_all

theorem hcall_not_mem_rowRightCalls (vp : Viewport) (y : Int) (cell : BorderStyleCell)
    (hc : HCall) : Call.h hc ∉ rowRightCalls vp y cell := by
  intro h
  unfold rowRightCalls at h
  repeat split at h
  all_goals simp_all

theorem mem_columnLeftCalls_iff (b : JsBordersSheet) (vp : Viewport) (x : Int)
    (cell : BorderStyleCell) (l : BorderStyleTimestamp)
    (hl : cell.left = some l) (hlc : l.line ≠ CellBorderLine.clear) :
    (Call.v ⟨vp.rowStart, vp.rowEnd + 1, x, l, b.rows⟩ ∈ columnLeftCalls b vp x cell) ↔
      ∀ rn, neighborRight b.columns x = some rn → l.timestamp > rn.timestamp := by
  unfold columnLeftCalls
  rw [hl]
  cases hnr : neighborRight b.columns x with
  | none => simp [if_neg hlc, hnr]
  | some rn =>
    by_cases hts : l.timestamp > rn.timestamp <;> simp [if_neg hlc, hnr, hts]

theorem mem_columnRightCalls_iff (b : JsBordersSheet) (vp : Viewport) (x : Int)
    (cell : BorderStyleCell) (r : BorderStyleTimestamp)
    (hr : cell.right = some r) (hrc : r.line ≠ CellBorderLine.clear) :
    (Call.v ⟨vp.rowStart, vp.rowEnd + 1, x + 1, r, b.rows⟩ ∈ columnRightCalls b vp x cell) ↔
      ∀ ln, neighborLeft b.columns x = some ln → r.timestamp > ln.timestamp := by
  unfold columnRightCalls
  rw [hr]
  cases hnl : neighborLeft b.columns x with
  | none => simp [if_neg hrc, hnl]
  | some ln =>
    by_cases hts : r.timestamp > ln.timestamp <;> simp [if_neg hrc, hnl, hts]

theorem mem_rowTopCalls_iff (b : JsBordersSheet) (vp : Viewport) (y : Int)
    (cell : BorderStyleCell) (t : BorderStyleTimestamp)
    (ht : cell.top = some t) (htc : t.line ≠ CellBorderLine.clear) :
    (Call.h ⟨vp.colStart, vp.colEnd + 1, y, t, b.columns⟩ ∈ rowTopCalls b vp y cell) ↔
      ∀ bn, neighborBottom b.rows y = some bn → t.timestamp > bn.timestamp := by
  unfold rowTopCalls
  rw [ht]
  cases hnb : neighborBottom b.rows y with
  | none => simp [if_neg htc, hnb]
  | some bn =>
    by_cases hts : t.timestamp > bn.timestamp <;> simp [if_neg htc, hnb, hts]

theorem mem_rowBottomCalls_iff (b : JsBordersSheet) (vp : Viewport) (y : Int)
    (cell : BorderStyleCell) (bo : BorderStyleTimestamp)
    (hb : cell.bottom = some bo) (hbc : bo.line ≠ CellBorderLine.clear) :
    (Call.h ⟨vp.colStart, vp.colEnd + 1, y + 1, bo, b.columns⟩ ∈ rowBottomCalls b vp y cell) ↔
      ∀ tn, neighborTop b.rows y = some tn → bo.timestamp > tn.timestamp := by
  unfold rowBottomCalls
  rw [hb]
  cases hnt : neighborTop b.rows y with
  | none => simp [if_neg hbc, hnt]
  | some tn =>
    by_cases hts : bo.timestamp > tn.timestamp <;> simp [if_neg hbc, hnt, hts]

theorem mem_columnEntry_left_iff (b : JsBordersSheet) (vp : Viewport) (x : Int)
    (cell : BorderStyleCell) (l : BorderStyleTimestamp)
    (hl : cell.left = some l) (hlc : l.line ≠ CellBorderLine.clear)
    (hvis : vp.colStart ≤ x ∧ x ≤ vp.colEnd) :
    (Call.v ⟨vp.rowStart, vp.rowEnd + 1, x, l, b.rows⟩ ∈ columnEntryCalls b vp x cell) ↔
      ∀ rn, neighborRight b.columns x = some rn → l.timestamp > rn.timestamp := by
  unfold columnEntryCalls
  rw [if_pos hvis]
  simp only [List.mem_append]
  constructor
  · rintro (((h | h) | h) | h)
    · exact (mem_columnLeftCalls_iff b vp x cell l hl hlc).mp h
    · exact absurd (vcall_mem_columnRightCalls_column b vp x cell _ h) (by simp)
    · exact absurd h (vcall_not_mem_columnTopCalls vp x cell _)
    · exact absurd h (vcall_not_mem_columnBottomCalls vp x cell _)
  · intro hc
    exact Or.inl (Or.inl (Or.inl ((mem_columnLeftCalls_iff b vp x cell l hl hlc).mpr hc)))

theorem mem_columnEntry_right_iff (b : JsBordersSheet) (vp : Viewport) (x : Int)
    (cell : BorderStyleCell) (r : BorderStyleTimestamp)
    (hr : cell.right = some r) (hrc : r.line ≠ CellBorderLine.clear)
    (hvis : vp.colStart ≤ x ∧ x ≤ vp.colEnd) :
    (Call.v ⟨vp.rowStart, vp.rowEnd + 1, x + 1, r, b.rows⟩ ∈ columnEntryCalls b vp x cell) ↔
      ∀ ln, neighborLeft b.columns x = some ln → r.timestamp > ln.timestamp := by
  unfold columnEntryCalls
  rw [if_pos hvis]
  simp only [List.mem_append]
  constructor
  · rintro (((h | h) | h) | h)
    · exact absurd (vcall_mem_columnLeftCalls_column b vp x cell _ h) (by simp)
    · exact (mem_columnRightCalls_iff b vp x cell r hr hrc).mp h
    · exact absurd h (vcall_not_mem_columnTopCalls vp x cell _)
    · exact absurd h (vcall_not_mem_columnBottomCalls vp x cell _)
  · intro hc
    exact Or.inl (Or.inl (Or.inr ((mem_columnRightCalls_iff b vp x cell r hr hrc).mpr hc)))

theorem mem_rowEntry_top_iff (b : JsBordersSheet) (vp : Viewport) (y : Int)
    (cell : BorderStyleCell) (t : BorderStyleTimestamp)
    (ht : cell.top = some t) (htc : t.line ≠ CellBorderLine.clear)
    (hvis : vp.rowStart ≤ y ∧ y ≤ vp.rowEnd) :
    (Call.h ⟨vp.colStart, vp.colEnd + 1, y, t, b.columns⟩ ∈ rowEntryCalls b vp y cell) ↔
      ∀ bn, neighborBottom b.rows y = some bn → t.timestamp > bn.timestamp := by
  unfold rowEntryCalls
  rw [if_pos hvis]
  simp only [List.mem_append]
  constructor
  · rintro (((h | h) | h) | h)
    · exact (mem_rowTopCalls_iff b vp y cell t ht htc).mp h
    · exact absurd (hcall_mem_rowBottomCalls_row b vp y cell _ h) (by simp)
    · exact absurd h (hcall_not_mem_rowLeftCalls vp y cell _)
    · exact absurd h (hcall_not_mem_rowRightCalls vp y cell _)
  · intro hc
    exact Or.inl (Or.inl (Or.inl ((mem_rowTopCalls_iff b vp y cell t ht htc).mpr hc)))

theorem mem_rowEntry_bottom_iff (b : JsBordersSheet) (vp : Viewport) (y : Int)
    (cell : BorderStyleCell) (bo : BorderStyleTimestamp)
    (hb : cell.bottom = some bo) (hbc : bo.line ≠ CellBorderLine.clear)
    (hvis : vp.rowStart ≤ y ∧ y ≤ vp.rowEnd) :
    (Call.h ⟨vp.colStart, vp.colEnd + 1, y + 1, bo, b.columns⟩ ∈ rowEntryCalls b vp y cell) ↔
      ∀ tn, neighborTop b.rows y = some tn → bo.timestamp > tn.timestamp := by
  unfold rowEntryCalls
  rw [if_pos hvis]
  simp only [List.mem_append]
  constructor
  · rintro (((h | h) | h) | h)
    · exact absurd (hcall_mem_rowTopCalls_row b vp y cell _ h) (by simp)
    · exact (mem_rowBottomCalls_iff b vp y cell bo hb hbc).mp h
    · exact absurd h (hcall_not_mem_rowLeftCalls vp y cell _)
    · exact absurd h (hcall_not_mem_rowRightCalls vp y cell _)
  · intro hc
    exact Or.inl (Or.inl (Or.inr ((mem_rowBottomCalls_iff b vp y cell bo hb hbc).mpr hc)))

/-- C3 counterexample: with `dsTie`, column 0 declares `right` and column 1
declares `left` at the same boundary with equal timestamps; the claim (a
neighbor suppresses only with a strictly later timestamp) predicts that
column 1's left edge is drawn, yet the code skips it because the guard
requires a strictly greater timestamp to beat the neighbor — in fact
neither side of the tied boundary is drawn. -/
theorem precedence_tie_counterexample :
    Call.v ⟨0, 1, 1, bst CellBorderLine.line1 5, none⟩ ∉ sheetBorderCalls dsTie vp0
    ∧ sheetBorderCalls dsTie vp0 = [] := by decide

/-- C3 (amended): a visible column's non-clear `left` edge is drawn exactly
when the previous column has no `right` entry or that entry's timestamp is
strictly smaller (so a later-or-equal neighbor timestamp suppresses it, and
on a tie neither side draws); symmetrically for `right` against the next
column's `left`, and for a row's `top`/`bottom` against the adjacent rows'
`bottom`/`top`. -/
theorem precedence_later_or_equal_suppresses (b : JsBordersSheet) (vp : Viewport)
    (x y : Int) (ccell rcell : BorderStyleCell) (l r t bo : BorderStyleTimestamp)
    (hvisx : vp.colStart ≤ x ∧ x ≤ vp.colEnd)
    (hvisy : vp.rowStart ≤ y ∧ y ≤ vp.rowEnd)
    (hl : ccell.left = some l) (hlc : l.line ≠ CellBorderLine.clear)
    (hr : ccell.right = some r) (hrc : r.line ≠ CellBorderLine.clear)
    (ht : rcell.top = some t) (htc : t.line ≠ CellBorderLine.clear)
    (hb : rcell.bottom = some bo) (hbc : bo.line ≠ CellBorderLine.clear) :
    ((Call.v ⟨vp.rowStart, vp.rowEnd + 1, x, l, b.rows⟩ ∈ columnEntryCalls b vp x ccell) ↔
      ∀ rn, neighborRight b.columns x = some rn → l.timestamp > rn.timestamp)
    ∧ ((Call.v ⟨vp.rowStart, vp.rowEnd + 1, x + 1, r, b.rows⟩ ∈ columnEntryCalls b vp x ccell) ↔
      ∀ ln, neighborLeft b.columns x = some ln → r.timestamp > ln.timestamp)
    ∧ ((Call.h ⟨vp.colStart, vp.colEnd + 1, y, t, b.columns⟩ ∈ rowEntryCalls b vp y rcell) ↔
      ∀ bn, neighborBottom b.rows y = some bn → t.timestamp > bn.timestamp)
    ∧ ((Call.h ⟨vp.colStart, vp.colEnd + 1, y + 1, bo, b.columns⟩ ∈ rowEntryCalls b vp y rcell) ↔
      ∀ tn, neighborTop b.rows y = some tn → bo.timestamp > tn.timestamp) :=
  ⟨mem_columnEntry_left_iff b vp x ccell l hl hlc hvisx,
    mem_columnEntry_right_iff b vp x ccell r hr hrc hvisx,
    mem_rowEntry_top_iff b vp y rcell t ht htc hvisy,
    mem_rowEntry_bottom_iff b vp y rcell bo hb hbc hvisy⟩

theorem precedence_later_or_equal_witness :
    (vp0.colStart ≤ 0 ∧ (0 : Int) ≤ vp0.colEnd)
    ∧ (vp0.rowStart ≤ 0 ∧ (0 : Int) ≤ vp0.rowEnd)
    ∧ cellFull.left = some (bst CellBorderLine.line3 5)
    ∧ (((Call.v ⟨0, 1, 0, bst CellBorderLine.line3 5, dsFull.rows⟩ ∈
          columnEntryCalls dsFull vp0 0 cellFull) ↔
        ∀ rn, neighborRight dsFull.columns 0 = some rn →
          (bst CellBorderLine.line3 5).timestamp > rn.timestamp)
      ∧ ((Call.v ⟨0, 1, 1, bst CellBorderLine.dotted 6, dsFull.rows⟩ ∈
          columnEntryCalls dsFull vp0 0 cellFull) ↔
        ∀ ln, neighborLeft dsFull.columns 0 = some ln →
          (bst CellBorderLine.dotted 6).timestamp > ln.timestamp)
      ∧ ((Call.h ⟨0, 3, 0, bst CellBorderLine.line1 3, dsFull.columns⟩ ∈
          rowEntryCalls dsFull vp0 0 cellFull) ↔
        ∀ bn, neighborBottom dsFull.rows 0 = some bn →
          (bst CellBorderLine.line1 3).timestamp > bn.timestamp)
      ∧ ((Call.h ⟨0, 3, 1, bst CellBorderLine.line2 4, dsFull.columns⟩ ∈
          rowEntryCalls dsFull vp0 0 cellFull) ↔
        ∀ tn, neighborTop dsFull.rows 0 = some tn →
          (bst CellBorderLine.line2 4).timestamp > tn.timestamp)) :=
  ⟨by decide, by decide, by decide,
    precedence_later_or_equal_suppresses dsFull vp0 0 0 cellFull cellFull
      (bst CellBorderLine.line3 5) (bst CellBorderLine.dotted 6)
      (bst CellBorderLine.line1 3) (bst CellBorderLine.line2 4)
      (by decide) (by decide) (by decide) (by decide) (by decide) (by decide)
      (by decide) (by decide) (by decide) (by decide)⟩

theorem mem_columnLeftCalls_not_clear (b : JsBordersSheet) (vp : Viewport) (x : Int)
    (cell : BorderStyleCell) (c : Call) (h : c ∈ columnLeftCalls b vp x cell) :
    (callBorder c).line ≠ CellBorderLine.clear := by
  unfold columnLeftCalls at h
  repeat split at h
  all_goals simp_all [callBorder]
  all_goals obtain ⟨h1, h⟩ := h
  all_goals split at h <;> simp_all [callBorder]

theorem mem_columnRightCalls_not_clear (b : JsBordersSheet) (vp : Viewport) (x : Int)
    (cell : BorderStyleCell) (c : Call) (h : c ∈ columnRightCalls b vp x cell) :
    (callBorder c).line ≠ CellBorderLine.clear := by
  unfold columnRightCalls at h
  repeat split at h
  all_goals simp_all [callBorder]
  all_goals obtain ⟨h1, h⟩ := h
  all_goals split at h <;> simp_all [callBorder]

theorem mem_columnTopCalls_not_clear (vp : Viewport) (x : Int)
    (cell : BorderStyleCell) (c : Call) (h : c ∈ columnTopCalls vp x cell) :
    (callBorder c).line ≠ CellBorderLine.clear := by
  unfold columnTopCalls at h
  repeat split at h
  all_goals simp_all [callBorder]
  all_goals obtain ⟨hg, i, hi, heq⟩ := h
  all_goals subst heq
  all_goals simp only [callBorder]
  all_goals exact hg

theorem mem_columnBottomCalls_not_clear (vp : Viewport) (x : Int)
    (cell : BorderStyleCell) (c : Call) (h : c ∈ columnBottomCalls vp x cell) :
    (callBorder c).line ≠ CellBorderLine.clear := by
  unfold columnBottomCalls at h
  repeat split at h
  all_goals simp_all [callBorder]
  all_goals obtain ⟨hg, i, hi, heq⟩ := h
  all_goals subst heq
  all_goals simp only [callBorder]
  all_goals exact hg

theorem mem_rowTopCalls_not_clear (b : JsBordersSheet) (vp : Viewport) (y : Int)
    (cell : BorderStyleCell) (c : Call) (h : c ∈ rowTopCalls b vp y cell) :
    (callBorder c).line ≠ CellBorderLine.clear := by
  unfold rowTopCalls at h
  repeat split at h
  all_goals simp_all [callBorder]
  all_goals obtain ⟨h1, h⟩ := h
  all_goals split at h <;> simp_all [callBorder]

theorem mem_rowBottomCalls_not_clear (b : JsBordersSheet) (vp : Viewport) (y : Int)
    (cell : BorderStyleCell) (c : Call) (h : c ∈ rowBottomCalls b vp y cell) :
    (callBorder c).line ≠ CellBorderLine.clear := by
  unfold rowBottomCalls at h
  repeat split at h
  all_goals simp_all [callBorder]
  all_goals obtain ⟨h1, h⟩ := h
  all_goals split at h <;> simp_all [callBorder]

theorem mem_rowLeftCalls_not_clear (vp : Viewport) (y : Int)
    (cell : BorderStyleCell) (c : Call) (h : c ∈ rowLeftCalls vp y cell) :
    (callBorder c).line ≠ CellBorderLine.clear := by
  unfold rowLeftCalls at h
  repeat split at h
  all_goals simp_all [callBorder]
  all_goals obtain ⟨hg, i, hi, heq⟩ := h
  all_goals subst heq
  all_goals simp only [callBorder]
  all_goals exact hg

theorem mem_rowRightCalls_not_clear (vp : Viewport) (y : Int)
    (cell : BorderStyleCell) (c : Call) (h : c ∈ rowRightCalls vp y cell) :
    (callBorder c).line ≠ CellBorderLine.clear := by
  unfold rowRightCalls at h
  repeat split at h
  all_goals simp_all [callBorder]
  all_goals obtain ⟨hg, i, hi, heq⟩ := h
  all_goals subst heq
  all_goals simp only [callBorder]
  all_goals exact hg

theorem columnEntryCalls_not_clear (b : JsBordersSheet) (vp : Viewport) (x : Int)
    (cell : BorderStyleCell) (c : Call) (h : c ∈ columnEntryCalls b vp x cell) :
    (callBorder c).line ≠ CellBorderLine.clear := by
  unfold columnEntryCalls at h
  split at h
  · rcases List.mem_append.mp h with h1 | h4
    · rcases List.mem_append.mp h1 with h2 | h3
      · rcases List.mem_append.mp h2 with ha | hb
        · exact mem_columnLeftCalls_not_clear b vp x cell c ha
        · exact mem_columnRightCalls_not_clear b vp x cell c hb
      · exact mem_columnTopCalls_not_clear vp x cell c h3
    · exact mem_columnBottomCalls_not_clear vp x cell c h4
  · simp at h

theorem rowEntryCalls_not_clear (b : JsBordersSheet) (vp : Viewport) (y : Int)
    (cell : BorderStyleCell) (c : Call) (h : c ∈ rowEntryCalls b vp y cell) :
    (callBorder c).line ≠ CellBorderLine.clear := by
  unfold rowEntryCalls at h
  split at h
  · rcases List.mem_append.mp h with h1 | h4
    · rcases List.mem_append.mp h1 with h2 | h3
      · rcases List.mem_append.mp h2 with ha | hb
        · exact mem_rowTopCalls_not_clear b vp y cell c ha
        · exact mem_rowBottomCalls_not_clear b vp y cell c hb
      · exact mem_rowLeftCalls_not_clear vp y cell c h3
    · exact mem_rowRightCalls_not_clear vp y cell c h4
  · simp at h

theorem mem_cellBorderOps_not_clear (sh : Sheet) (b : JsBordersSheet) (op : DrawOp)
    (h : op ∈ cellBorderOps sh b) : op.line ≠ CellBorderLine.clear := by
  unfold cellBorderOps at h
  rcases List.mem_append.mp h with h | h
  · split at h
    · simp at h
    · simp only [List.mem_flatMap] at h
      obtain ⟨bd, hbd, hop⟩ := h
      split at hop <;> simp_all
  · split at h
    · simp at h
    · simp only [List.mem_flatMap] at h
      obtain ⟨bd, hbd, hop⟩ := h
      split at hop <;> simp_all

theorem collectVertical_ignores_line_kind (k : CellBorderLine) (vs : List JsBorderVertical)
    (ovr : Option OverrideMap) (rs re col : Int) :
    collectVerticalObstructions (some (List.map (setVerticalLineKind k) vs)) ovr rs re col =
      collectVerticalObstructions (some vs) ovr rs re col := by
  simp only [collectVerticalObstructions]
  congr 1
  induction vs with
  | nil => rfl
  | cons v tl ih =>
    simp only [List.map_cons, List.filter_cons]
    by_cases hp : (v.x == col && lineLineOneDimension v.y (v.y + v.height) rs re) = true
    · simp only [setVerticalLineKind] at hp ⊢
      simp [hp, ih]
    · simp only [setVerticalLineKind] at hp ⊢
      simp [hp, ih]

/-- C4 counterexample: in `dsClearNeighbor`, column 0's `right` edge is
`clear` with timestamp 10 and column 1's `left` edge is solid with
timestamp 1.  The claim predicts that the clear neighbor never suppresses
the solid left edge, yet the neighbor check compares only timestamps, so
the solid edge is skipped and nothing at all is drawn. -/
theorem clear_neighbor_counterexample :
    Call.v ⟨0, 1, 1, bst CellBorderLine.line1 1, none⟩ ∉ sheetBorderCalls dsClearNeighbor vp0
    ∧ sheetBorderCalls dsClearNeighbor vp0 = [] := by decide

/-- C4 (amended): a `clear` declaration is never drawn by the column, row
or explicit-segment tiers; however it does participate in precedence: a
neighboring `clear` edge with a later-or-equal timestamp suppresses the
adjacent non-clear edge, and explicit segments are counted as obstructions
regardless of their line kind (`clear` included). -/
theorem clear_edges_behavior (b : JsBordersSheet) (vp : Viewport) (x y rs re col : Int)
    (cell cell2 : BorderStyleCell) (sh : Sheet) (ovr : Option OverrideMap)
    (l rn : BorderStyleTimestamp)
    (hl : cell.left = some l) (hlc : l.line ≠ CellBorderLine.clear)
    (hn : neighborRight b.columns x = some rn)
    (hnc : rn.line = CellBorderLine.clear)
    (hts : l.timestamp ≤ rn.timestamp) :
    (∀ c ∈ columnEntryCalls b vp x cell, (callBorder c).line ≠ CellBorderLine.clear)
    ∧ (∀ c ∈ rowEntryCalls b vp y cell2, (callBorder c).line ≠ CellBorderLine.clear)
    ∧ (∀ op ∈ cellBorderOps sh b, op.line ≠ CellBorderLine.clear)
    ∧ Call.v ⟨vp.rowStart, vp.rowEnd + 1, x, l, b.rows⟩ ∉ columnEntryCalls b vp x cell
    ∧ (∀ (k : CellBorderLine) (vs : List JsBorderVertical),
        collectVerticalObstructions (some (List.map (setVerticalLineKind k) vs)) ovr rs re col =
          collectVerticalObstructions (some vs) ovr rs re col) := by
  refine ⟨fun c hc => columnEntryCalls_not_clear b vp x cell c hc,
    fun c hc => rowEntryCalls_not_clear b vp y cell2 c hc,
    fun op hop => mem_cellBorderOps_not_clear sh b op hop, ?_,
    fun k vs => collectVertical_ignores_line_kind k vs ovr rs re col⟩
  by_cases hvis : vp.colStart ≤ x ∧ x ≤ vp.colEnd
  · rw [mem_columnEntry_left_iff b vp x cell l hl hlc hvis]
    intro hall
    have := hall rn hn
    omega
  · unfold columnEntryCalls
    rw [if_neg hvis]
    simp

theorem clear_edges_behavior_witness :
    (cellL (bst CellBorderLine.line1 1)).left = some (bst CellBorderLine.line1 1)
    ∧ neighborRight dsClearNeighbor.columns 1 = some (bst CellBorderLine.clear 10)
    ∧ (bst CellBorderLine.clear 10).line = CellBorderLine.clear
    ∧ (bst CellBorderLine.line1 1).timestamp ≤ (bst CellBorderLine.clear 10).timestamp
    ∧ Call.v ⟨0, 1, 1, bst CellBorderLine.line1 1, none⟩ ∉
        columnEntryCalls dsClearNeighbor vp0 1 (cellL (bst CellBorderLine.line1 1)) :=
  ⟨by decide, by decide, by decide, by decide,
    (clear_edges_behavior dsClearNeighbor vp0 1 0 0 0 0
      (cellL (bst CellBorderLine.line1 1)) cellFull sh0 none
      (bst CellBorderLine.line1 1) (bst CellBorderLine.clear 10)
      (by decide) (by decide) (by decide) (by decide) (by decide)).2.2.2.1⟩

theorem hcall_not_mem_columnLeftCalls (b : JsBordersSheet) (vp : Viewport) (x : Int)
    (cell : BorderStyleCell) (hc : HCall) : Call.h hc ∉ columnLeftCalls b vp x cell := by
  intro h
  unfold columnLeftCalls at h
  repeat split at h
  all_goals simp_all
  all_goals obtain ⟨-, h⟩ := h
  all_goals split at h <;> simp_all

theorem hcall_not_mem_columnRightCalls (b : JsBordersSheet) (vp : Viewport) (x : Int)
    (cell : BorderStyleCell) (hc : HCall) : Call.h hc ∉ columnRightCalls b vp x cell := by
  intro h
  unfold columnRightCalls at h
  repeat split at h
  all_goals simp_all
  all_goals obtain ⟨-, h⟩ := h
  all_goals split at h <;> simp_all

theorem hcall_mem_columnTopCalls_overrides (vp : Viewport) (x : Int)
    (cell : BorderStyleCell) (hc : HCall) (h : Call.h hc ∈ columnTopCalls vp x cell) :
    hc.overrides = none := by
  unfold columnTopCalls at h
  repeat split at h
  all_goals simp_all
  all_goals obtain ⟨hg, i, hi, heq⟩ := h
  all_goals subst heq
  all_goals rfl

theorem hcall_mem_columnBottomCalls_overrides (vp : Viewport) (x : Int)
    (cell : BorderStyleCell) (hc : HCall) (h : Call.h hc ∈ columnBottomCalls vp x cell) :
    hc.overrides = none := by
  unfold columnBottomCalls at h
  repeat split at h
  all_goals simp_all
  all_goals obtain ⟨hg, i, hi, heq⟩ := h
  all_goals subst heq
  all_goals rfl

theorem hcall_mem_columnEntryCalls_overrides (b : JsBordersSheet) (vp : Viewport)
    (x : Int) (cell : BorderStyleCell) (hc : HCall)
    (h : Call.h hc ∈ columnEntryCalls b vp x cell) : hc.overrides = none := by
  unfold columnEntryCalls at h
  split at h
  · rcases List.mem_append.mp h with h1 | h4
    · rcases List.mem_append.mp h1 with h2 | h3
      · rcases List.mem_append.mp h2 with ha | hb
        · exact absurd ha (hcall_not_mem_columnLeftCalls b vp x cell hc)
        · exact absurd hb (hcall_not_mem_columnRightCalls b vp x cell hc)
      · exact hcall_mem_columnTopCalls_overrides vp x cell hc h3
    · exact hcall_mem_columnBottomCalls_overrides vp x cell hc h4
  · simp at h

theorem vcall_not_mem_rowTopCalls (b : JsBordersSheet) (vp : Viewport) (y : Int)
    (cell : BorderStyleCell) (vc : VCall) : Call.v vc ∉ rowTopCalls b vp y cell := by
  intro h
  unfold rowTopCalls at h
  repeat split at h
  all_goals simp_all
  all_goals obtain ⟨-, h⟩ := h
  all_goals split at h <;> simp_all

theorem vcall_not_mem_rowBottomCalls (b : JsBordersSheet) (vp : Viewport) (y : Int)
    (cell : BorderStyleCell) (vc : VCall) : Call.v vc ∉ rowBottomCalls b vp y cell := by
  intro h
  unfold rowBottomCalls at h
  repeat split at h
  all_goals simp_all
  all_goals obtain ⟨-, h⟩ := h
  all_goals split at h <;> simp_all

theorem vcall_mem_rowLeftCalls_overrides (vp : Viewport) (y : Int)
    (cell : BorderStyleCell) (vc : VCall) (h : Call.v vc ∈ rowLeftCalls vp y cell) :
    vc.overrides = none := by
  unfold rowLeftCalls at h
  repeat split at h
  all_goals simp_all
  all_goals obtain ⟨hg, i, hi, heq⟩ := h
  all_goals subst heq
  all_goals rfl

theorem vcall_mem_rowRightCalls_overrides (vp : Viewport) (y : Int)
    (cell : BorderStyleCell) (vc : VCall) (h : Call.v vc ∈ rowRightCalls vp y cell) :
    vc.overrides = none := by
  unfold rowRightCalls at h
  repeat split at h
  all_goals simp_all
  all_goals obtain ⟨hg, i, hi, heq⟩ := h
  all_goals subst heq
  all_goals rfl

theorem vcall_mem_rowEntryCalls_overrides (b : JsBordersSheet) (vp : Viewport)
    (y : Int) (cell : BorderStyleCell) (vc : VCall)
    (h : Call.v vc ∈ rowEntryCalls b vp y cell) : vc.overrides = none := by
  unfold rowEntryCalls at h
  split at h
  · rcases List.mem_append.mp h with h1 | h4
    · rcases List.mem_append.mp h1 with h2 | h3
      · rcases List.mem_append.mp h2 with ha | hb
        · exact absurd ha (vcall_not_mem_rowTopCalls b vp y cell vc)
        · exact absurd hb (vcall_not_mem_rowBottomCalls b vp y cell vc)
      · exact vcall_mem_rowLeftCalls_overrides vp y cell vc h3
    · exact vcall_mem_rowRightCalls_overrides vp y cell vc h4
  · simp at h

theorem screenHorizontal_none_explicitOnly (hs : Option (List JsBorderHorizontal))
    (cs ce r : Int) :
    screenHorizontalSegments hs none cs ce r = explicitOnlyHorizontalSegments hs cs ce r := by
  cases hs with
  | none => rfl
  | some l =>
    simp [screenHorizontalSegments, explicitOnlyHorizontalSegments,
      collectHorizontalObstructions, findPerpendicularHorizontalLines]

theorem screenVertical_none_explicitOnly (vs : Option (List JsBorderVertical))
    (rs re col : Int) :
    screenVerticalSegments vs none rs re col = explicitOnlyVerticalSegments vs rs re col := by
  cases vs with
  | none => rfl
  | some l =>
    simp [screenVerticalSegments, explicitOnlyVerticalSegments,
      collectVerticalObstructions, findPerpendicularVerticalLines]

/-- C10: every horizontal call issued by the column tier (the unit-length
top and bottom edges of a column override) carries a null override
obstruction source, so it is split only by explicit horizontal segments;
symmetrically, every vertical call issued by the row tier carries a null
override source and is split only by explicit vertical segments. -/
theorem perpendicular_edges_null_override_source (b : JsBordersSheet) (vp : Viewport)
    (x y : Int) (ccell rcell : BorderStyleCell) (hc : HCall) (vc : VCall)
    (hmemH : Call.h hc ∈ columnEntryCalls b vp x ccell)
    (hmemV : Call.v vc ∈ rowEntryCalls b vp y rcell) :
    hc.overrides = none
    ∧ screenHorizontalSegments b.horizontal hc.overrides hc.columnStart hc.columnEnd hc.row =
        explicitOnlyHorizontalSegments b.horizontal hc.columnStart hc.columnEnd hc.row
    ∧ vc.overrides = none
    ∧ screenVerticalSegments b.vertical vc.overrides vc.rowStart vc.rowEnd vc.column =
        explicitOnlyVerticalSegments b.vertical vc.rowStart vc.rowEnd vc.column := by
  have h1 := hcall_mem_columnEntryCalls_overrides b vp x ccell hc hmemH
  have h2 := vcall_mem_rowEntryCalls_overrides b vp y rcell vc hmemV
  refine ⟨h1, ?_, h2, ?_⟩
  · rw [h1]
    exact screenHorizontal_none_explicitOnly b.horizontal hc.columnStart hc.columnEnd hc.row
  · rw [h2]
    exact screenVertical_none_explicitOnly b.vertical vc.rowStart vc.rowEnd vc.column

theorem perpendicular_edges_null_override_witness :
    Call.h ⟨0, 1, 0, bst CellBorderLine.line1 3, none⟩ ∈ columnEntryCalls dsFull vp0 0 cellFull
    ∧ Call.v ⟨0, 1, 0, bst CellBorderLine.line3 5, none⟩ ∈ rowEntryCalls dsFull vp0 0 cellFull
    ∧ ((none : Option OverrideMap) = none
      ∧ screenHorizontalSegments dsFull.horizontal none 0 1 0 =
          explicitOnlyHorizontalSegments dsFull.horizontal 0 1 0
      ∧ (none : Option OverrideMap) = none
      ∧ screenVerticalSegments dsFull.vertical none 0 1 0 =
          explicitOnlyVerticalSegments dsFull.vertical 0 1 0) :=
  ⟨by decide, by decide,
    perpendicular_edges_null_override_source dsFull vp0 0 0 cellFull cellFull
      ⟨0, 1, 0, bst CellBorderLine.line1 3, none⟩
      ⟨0, 1, 0, bst CellBorderLine.line3 5, none⟩
      (by decide) (by decide)⟩
